import Mathlib

/-!
Shallow embedding of the staged-release unpacking pipeline of
`pkg/release/unpacker.go` (package `release` of the cert-manager release
tool), together with theorems about its behaviour.

The Go code composes fallible operations: artifact selection by kind,
integrity-verified download, gzip-tar extraction, recursive filesystem
scanning and per-component image-bundle classification.  The embedding
models:

* Go byte slices as `List Nat`;
* the filesystem tree produced by an extraction as the inductive `FSTree`
  (a directory entry is a regular file or a subdirectory with entries);
* fallible operations as `Except`-valued functions;
* the ambient effectful collaborators (the remote object store, the
  SHA-256 function of the Go standard library, the archive extractor
  `tar.UntarGz`, the chart loader `manifests.NewChart` and the image-tar
  inspector `images.NewTar`, which live outside the verified sources) as
  fields of an explicit environment `Env`;
* `ioutil.TempDir` as a counter threaded through the pipeline that hands
  out fresh directory identifiers;
* the invocations of the archive extractor as an explicit trace of
  `ExtractCall` events, so that "the extractor is never invoked on
  unverified bytes" is a provable statement.

Local file IO that only touches freshly created temporary files
(`TempFile`, `Sync`, `Seek`, `Open` on the just-written file) is modelled
as succeeding; every failure point that crosses a component boundary in
the Go code (download, hashing mismatch, extraction, chart construction,
image inspection, artifact-cardinality checks) is modelled faithfully.
-/

namespace CertManagerRelease

/-! ## Filepath helpers (Go `path/filepath`)

`filepath.Ext` scans the path backwards; it stops at a path separator and
returns the suffix starting at the first `.` found (the final dot of the
final element), or the empty string if there is none.  `filepath.Base`
returns the last element of the path after dropping trailing separators.
Paths here use `/` as the only separator, as the Go tool does on the
platforms it runs on. -/

/-- Backwards scan for `filepath.Ext`: the input is the reversed character
list of the path, the accumulator holds the characters already passed
over (in forward order). -/
def extRevScan : List Char → List Char → String
  | [], _ => ""
  | c :: rest, acc =>
    if c = '/' then ""
    else if c = '.' then String.mk (c :: acc)
    else extRevScan rest (c :: acc)

/-- Go `filepath.Ext`: the suffix beginning at the final dot in the final
element of the path; empty if there is no dot. -/
def filepathExt (p : String) : String :=
  extRevScan p.data.reverse []

/-- Backwards scan for `filepath.Base`: the input is the reversed
character list of the path with trailing separators already dropped. -/
def baseRevScan : List Char → List Char → String
  | [], acc => String.mk acc
  | c :: rest, acc =>
    if c = '/' then String.mk acc
    else baseRevScan rest (c :: acc)

/-- Drop the leading separators of a reversed character list (that is,
the trailing separators of the path). -/
def dropSepRev : List Char → List Char
  | [] => []
  | c :: rest => if c = '/' then dropSepRev rest else c :: rest

/-- Go `filepath.Base`: the last element of the path, after dropping
trailing separators; `"."` for the empty path, `"/"` if the path consists
only of separators. -/
def filepathBase (p : String) : String :=
  if p = "" then "."
  else
    let stripped := dropSepRev p.data.reverse
    if stripped.isEmpty then "/"
    else baseRevScan stripped []

/-! ## Filesystem trees and the recursive extension scanner -/

/-- One entry of an extracted directory: a regular file or a
subdirectory with its own entries. -/
inductive FSTree where
  | file (name : String)
  | dir (name : String) (entries : List FSTree)

/-- The name of a directory entry. -/
def FSTree.name : FSTree → String
  | .file n => n
  | .dir n _ => n

mutual

/-- Size of a directory entry (computable measure used as walk fuel). -/
def FSTree.size : FSTree → Nat
  | .file _ => 1
  | .dir _ es => 1 + sizeEntries es

/-- Size of a list of directory entries. -/
def sizeEntries : List FSTree → Nat
  | [] => 1
  | e :: es => 1 + e.size + sizeEntries es

end

/-- Lexicographic order on character lists; with ASCII names this is the
byte order Go's `sort.Strings` uses. -/
def charListLe : List Char → List Char → Bool
  | [], _ => true
  | _ :: _, [] => false
  | c :: cs, d :: ds => if c = d then charListLe cs ds else decide (c < d)

/-- Lexicographic order on strings (Go `<=` on strings, for ASCII). -/
def strLe (a b : String) : Bool :=
  charListLe a.data b.data

/-- Insert an entry into a name-sorted list of entries (helper for
`sortEntries`). -/
def insertByName (e : FSTree) : List FSTree → List FSTree
  | [] => [e]
  | x :: xs => if strLe e.name x.name then e :: x :: xs else x :: insertByName e xs

/-- Sort directory entries by name.  Go's `filepath.Walk` reads each
directory's entries and sorts the names (`readDirNames` uses
`sort.Strings`) before visiting them. -/
def sortEntries : List FSTree → List FSTree
  | [] => []
  | e :: es => insertByName e (sortEntries es)

/-- The body of Go's `filepath.Walk` as called by `recursiveFindWithExt`:
visit every entry below `path`; directories are skipped (`info.IsDir()`),
a regular file is collected when `filepath.Ext(path) == ext`.  Each
directory's entries are visited in sorted order.  The extra `fuel`
argument makes the nested recursion structural; it strictly dominates the
size of the tree being walked, so it never runs out when the function is
called through `recursiveFindWithExt`. -/
def walkFuel (ext : String) : Nat → String → List FSTree → List String
  | 0, _, _ => []
  | _ + 1, _, [] => []
  | fuel + 1, path, e :: rest =>
    (match e with
     | FSTree.file n =>
       if filepathExt (path ++ "/" ++ n) = ext then [path ++ "/" ++ n] else []
     | FSTree.dir n es => walkFuel ext fuel (path ++ "/" ++ n) (sortEntries es))
    ++ walkFuel ext fuel path rest

/-- Go `recursiveFindWithExt(path, ext)`: recursively walk the directory
`path` (whose entries are `entries`) and return the paths of all regular
files whose `filepath.Ext` equals `ext`, in walk order.  The root itself
is a directory and is therefore never collected.  Traversal of the
in-memory tree cannot fail, which models a readable extracted tree. -/
def recursiveFindWithExt (path : String) (entries : List FSTree) (ext : String) : List String :=
  walkFuel ext (sizeEntries entries) path (sortEntries entries)

/-- Specification-side companion of the walk: the paths of ALL regular
files below the directory, in the same sorted traversal order, with no
extension test.  Used to state that the scanner returns exactly the
regular files whose extension matches. -/
def specFilesFuel : Nat → String → List FSTree → List String
  | 0, _, _ => []
  | _ + 1, _, [] => []
  | fuel + 1, path, e :: rest =>
    (match e with
     | FSTree.file n => [path ++ "/" ++ n]
     | FSTree.dir n es => specFilesFuel fuel (path ++ "/" ++ n) (sortEntries es))
    ++ specFilesFuel fuel path rest

/-- Specification-side: all regular-file paths below `path`. -/
def specAllFiles (path : String) (entries : List FSTree) : List String :=
  specFilesFuel (sizeEntries entries) path (sortEntries entries)

/-! ## Data model of a staged release -/

/-- `release.ArtifactMetadata`: the published metadata of one staged
artifact.  The `Name`, `SHA256`, `OS` and `Architecture` fields are the
ones the unpacker reads.  The `Kind` field is modelled from the spec: the
artifact record's kind (`manifests`, `server` or `client`) by which
`Staged.ArtifactsOfKind` selects records; its storage lives outside the
verified sources. -/
structure ArtifactMetadata where
  Name : String
  SHA256 : String
  OS : String
  Architecture : String
  Kind : String
deriving Repr, DecidableEq

/-- `release.StagedArtifact`: artifact metadata together with its remote
object handle.  `remote` models the composite result of
`ObjectHandle.NewReader` followed by `io.Copy`: either the downloaded
bytes or the IO error message. -/
structure StagedArtifact where
  Metadata : ArtifactMetadata
  remote : Except String (List Nat)

/-- `release.Staged`: a staged release.  `name` is `s.Name()`;
`ReleaseVersion` and `GitCommitRef` are the fields of `s.Metadata()` the
unpacker reads; `artifacts` is the release's declared artifact list. -/
structure Staged where
  name : String
  ReleaseVersion : String
  GitCommitRef : String
  artifacts : List StagedArtifact

/-- Modelled from the spec: `Staged.ArtifactsOfKind` (defined outside the
verified sources) returns every artifact record whose kind equals the
requested value, in the release's declared order. -/
def Staged.ArtifactsOfKind (s : Staged) (kind : String) : List StagedArtifact :=
  s.artifacts.filter (fun a => a.Metadata.Kind = kind)

/-- `manifests.Chart`: one Helm chart package, carrying its source
path. -/
structure Chart where
  path : String
deriving Repr, DecidableEq

/-- `manifests.YAML`: one static manifest file, carrying its source
path. -/
structure YAML where
  path : String
deriving Repr, DecidableEq

/-- `images.Tar`: one container image tarball: source path, the OS and
architecture declared by the artifact it came from, and the image name
read from the tar's own metadata. -/
structure ImagesTar where
  path : String
  os : String
  architecture : String
  imageName : String
deriving Repr, DecidableEq

/-- The errors the unpacker can return, with the data each carries.  The
Go code builds these with `fmt.Errorf`; the constructors record which
error is produced and what it names. -/
inductive UnpackError where
  /-- IO failure while downloading an artifact (reader creation or
  copy). -/
  | ioErr (msg : String)
  /-- `"artifact %q has a mismatching checksum - refusing to extract"`. -/
  | integrity (artifactName : String)
  /-- Failure inside `tar.UntarGz`, wrapped with nothing at this layer. -/
  | extraction (msg : String)
  /-- `"cannot find 'manifests' artifact in staged release %q"`. -/
  | notFoundManifests (releaseName : String)
  /-- `"found multiple 'manifests' artifacts in staged release %q"`. -/
  | multipleManifests (releaseName : String)
  /-- Failure of `manifests.NewChart` on a discovered chart path. -/
  | chartErr (msg : String)
  /-- `"failed to inspect image tar at path %q: %w"`. -/
  | inspectErr (path : String) (msg : String)
deriving Repr, DecidableEq

/-- The effectful collaborators of the unpacker, fixed for one run.

* `sha256Hex` models `crypto/sha256` plus `hex.EncodeToString` from the
  Go standard library: the lowercase hex digest of a byte stream.
* `untarGz` — modelled from the spec: `tar.UntarGz` (the Archive
  Extractor, outside the verified sources) unpacks a gzip-compressed tar
  stream into the destination directory, producing the directory's
  entries, or fails; extraction is a function of the archive bytes only.
* `chartError` — modelled from the spec: `manifests.NewChart` (outside
  the verified sources) constructs a Chart carrying the source path of a
  discovered `.tgz` file, or fails with an error for that path.
* `imageNameAt` — modelled from the spec: `images.NewTar` (outside the
  verified sources) inspects the image tar at a path and returns the
  image name recorded in the tar's own metadata, or fails. -/
structure Env where
  sha256Hex : List Nat → String
  untarGz : List Nat → Except String (List FSTree)
  chartError : String → Option String
  imageNameAt : String → Except String String

/-- `manifests.NewChart(path)`: constructs the Chart for a discovered
chart package, or fails (see `Env.chartError`). -/
def manifestsNewChart (env : Env) (path : String) : Except String Chart :=
  match env.chartError path with
  | some e => Except.error e
  | none => Except.ok { path := path }

/-- `manifests.NewYAML(path)`: constructs the YAML manifest value; the Go
constructor cannot fail. -/
def manifestsNewYAML (path : String) : YAML :=
  { path := path }

/-- `images.NewTar(path, os, arch)`: inspects the image tar at `path` and
returns the descriptor tagged with the declared OS and architecture, or
fails (see `Env.imageNameAt`). -/
def imagesNewTar (env : Env) (archive osV arch : String) : Except String ImagesTar :=
  match env.imageNameAt archive with
  | Except.error e => Except.error e
  | Except.ok n => Except.ok { path := archive, os := osV, architecture := arch, imageName := n }

/-- The directory name `ioutil.TempDir("", "extracted-artifact-")`
produces for the `n`-th allocation of a run. -/
def tempDirPath (n : Nat) : String :=
  "/tmp/extracted-artifact-" ++ toString n

/-- The component-name computation of `unpackServerImagesFromRelease`:
`baseName := filepath.Base(archive)` followed by
`componentName := baseName[:len(baseName)-len(filepath.Ext(baseName))]`. -/
def componentNameOf (archive : String) : String :=
  let baseName := filepathBase archive
  String.mk (baseName.data.take (baseName.data.length - (filepathExt baseName).data.length))

/-- One invocation of the archive extractor `tar.UntarGz`: the
destination directory id and the (already verified) archive bytes passed
to it. -/
structure ExtractCall where
  dest : Nat
  bytes : List Nat
deriving Repr, DecidableEq

/-! ## The unpacker (`pkg/release/unpacker.go`) -/

/-- Go `sha256SumFile`: hash the contents of the named local file — here,
the bytes it holds. -/
def sha256SumFile (env : Env) (contents : List Nat) : String :=
  env.sha256Hex contents

/-- Go `extractStagedArtifact(ctx, a, dest)`: download the artifact to a
fresh temporary file, flush and rewind it, hash it, compare the digest to
the declared `SHA256` (mismatch fails with the integrity error naming the
artifact), and only then hand the file to `tar.UntarGz` with destination
`dest`.  Returns the extracted entries (the contents `dest` now holds)
and the trace of `UntarGz` invocations this call performed. -/
def extractStagedArtifact (env : Env) (a : StagedArtifact) (dest : Nat) :
    Except UnpackError (List FSTree) × List ExtractCall :=
  match a.remote with
  | Except.error e => (Except.error (UnpackError.ioErr e), [])
  | Except.ok bytes =>
    let downloadedSum := sha256SumFile env bytes
    if downloadedSum ≠ a.Metadata.SHA256 then
      (Except.error (UnpackError.integrity a.Metadata.Name), [])
    else
      match env.untarGz bytes with
      | Except.error e => (Except.error (UnpackError.extraction e), [⟨dest, bytes⟩])
      | Except.ok t => (Except.ok t, [⟨dest, bytes⟩])

/-- Go `extractStagedArtifactToTempDir(ctx, a)`: allocate a fresh
temporary directory (the counter `fresh` models `ioutil.TempDir`) and
extract the artifact into it.  Returns the directory id with the
extracted entries, the next counter value, and the extraction trace. -/
def extractStagedArtifactToTempDir (env : Env) (a : StagedArtifact) (fresh : Nat) :
    Except UnpackError (Nat × List FSTree) × Nat × List ExtractCall :=
  match extractStagedArtifact env a fresh with
  | (Except.error e, calls) => (Except.error e, fresh + 1, calls)
  | (Except.ok t, calls) => (Except.ok (fresh, t), fresh + 1, calls)

/-- Go `manifestArtifactForStaged(s)`: the unique `manifests`-kind
artifact of the release; zero matches is the not-found error naming the
release, more than one the ambiguity error naming the release. -/
def manifestArtifactForStaged (s : Staged) : Except UnpackError StagedArtifact :=
  let artifacts := s.ArtifactsOfKind ("manifests")
  if h0 : artifacts.length = 0 then
    Except.error (UnpackError.notFoundManifests s.name)
  else if artifacts.length > 1 then
    Except.error (UnpackError.multipleManifests s.name)
  else
    Except.ok (artifacts.get ⟨0, Nat.pos_of_ne_zero h0⟩)

/-- The classification loop inside `unpackServerImagesFromRelease`: for
each discovered `.tar` path in order, inspect it with `images.NewTar`
(failure wraps the path into the inspect error), derive the component
name from the base filename with its extension stripped, and append the
descriptor to that component's bundle.  The bundle map is modelled as a
total function from component name to its (append-ordered) list. -/
def classifyImageArchives (env : Env) (osV arch : String) :
    List String → (String → List ImagesTar) → Except UnpackError (String → List ImagesTar)
  | [], m => Except.ok m
  | archive :: rest, m =>
    match imagesNewTar env archive osV arch with
    | Except.error e => Except.error (UnpackError.inspectErr archive e)
    | Except.ok imageTar =>
      let componentName := componentNameOf archive
      classifyImageArchives env osV arch rest
        (fun k => if k = componentName then m componentName ++ [imageTar] else m k)

/-- The loop body of `unpackServerImagesFromRelease` over the list of
`server`-kind artifacts: extract each into its own fresh temporary
directory, scan it recursively for `.tar` files, and classify them with
the artifact's declared OS and architecture, accumulating into the shared
bundle map. -/
def serverArtifactsLoop (env : Env) :
    List StagedArtifact → Nat → (String → List ImagesTar) →
    Except UnpackError (String → List ImagesTar) × Nat × List ExtractCall
  | [], fresh, m => (Except.ok m, fresh, [])
  | a :: rest, fresh, m =>
    match extractStagedArtifactToTempDir env a fresh with
    | (Except.error e, fresh', calls) => (Except.error e, fresh', calls)
    | (Except.ok (dir, t), fresh', calls) =>
      let imageArchives := recursiveFindWithExt (tempDirPath dir) t (".tar")
      match classifyImageArchives env a.Metadata.OS a.Metadata.Architecture imageArchives m with
      | Except.error e => (Except.error e, fresh', calls)
      | Except.ok m' =>
        let r := serverArtifactsLoop env rest fresh' m'
        (r.1, r.2.1, calls ++ r.2.2)

/-- Go `unpackServerImagesFromRelease(ctx, s)`: process every
`server`-kind artifact of the release in declared order, starting from
the empty bundle map. -/
def unpackServerImagesFromRelease (env : Env) (s : Staged) (fresh : Nat) :
    Except UnpackError (String → List ImagesTar) × Nat × List ExtractCall :=
  serverArtifactsLoop env (s.ArtifactsOfKind ("server")) fresh (fun _ => [])

/-- `release.Unpacked`: the assembled result of a successful unpack. -/
structure Unpacked where
  ReleaseVersion : String
  GitCommitRef : String
  Charts : List Chart
  YAMLs : List YAML
  ComponentImageBundles : String → List ImagesTar

/-- The chart-construction loop of `Unpack`: build a Chart per discovered
`.tgz` path in order, aborting on the first failure. -/
def buildCharts (env : Env) : List String → Except UnpackError (List Chart)
  | [] => Except.ok []
  | p :: rest =>
    match manifestsNewChart env p with
    | Except.error e => Except.error (UnpackError.chartErr e)
    | Except.ok c =>
      match buildCharts env rest with
      | Except.error e => Except.error e
      | Except.ok cs => Except.ok (c :: cs)

/-- Go `Unpack(ctx, s)`: resolve the single `manifests` artifact, extract
it into a fresh temporary directory, scan for `.tgz` (charts) and `.yaml`
(static manifests), process the `server` artifacts into component image
bundles, and assemble the `Unpacked` value with the release's own version
and commit metadata.  Any step's error aborts the pipeline and is
returned as is.  Besides the result, the model returns the final
temporary-directory counter and the trace of archive-extractor
invocations. -/
def Unpack (env : Env) (s : Staged) (fresh : Nat) :
    Except UnpackError Unpacked × Nat × List ExtractCall :=
  match manifestArtifactForStaged s with
  | Except.error e => (Except.error e, fresh, [])
  | Except.ok manifestsA =>
    match extractStagedArtifactToTempDir env manifestsA fresh with
    | (Except.error e, fresh', calls) => (Except.error e, fresh', calls)
    | (Except.ok (dir, t), fresh', calls) =>
      let manifestsDir := tempDirPath dir
      let chartPaths := recursiveFindWithExt manifestsDir t (".tgz")
      match buildCharts env chartPaths with
      | Except.error e => (Except.error e, fresh', calls)
      | Except.ok charts =>
        let yamlPaths := recursiveFindWithExt manifestsDir t (".yaml")
        let yamls := yamlPaths.map manifestsNewYAML
        match unpackServerImagesFromRelease env s fresh' with
        | (Except.error e, fresh'', calls') => (Except.error e, fresh'', calls ++ calls')
        | (Except.ok bundles, fresh'', calls') =>
          (Except.ok
            { ReleaseVersion := s.ReleaseVersion
              GitCommitRef := s.GitCommitRef
              Charts := charts
              YAMLs := yamls
              ComponentImageBundles := bundles },
           fresh'', calls ++ calls')

/-! ## Concrete fixtures

A small concrete world used to exercise the pipeline: a manifests archive
holding one chart and one YAML manifest, and two single-image server
archives (one per architecture). -/

/-- A concrete environment: byte stream `[0]` is the manifests archive,
`[1]` and `[2]` the two server archives. -/
def sampleEnv : Env where
  sha256Hex := fun b =>
    if b = [0] then "aa" else if b = [1] then "bb" else if b = [2] then "cc" else "zz"
  untarGz := fun b =>
    if b = [0] then Except.ok [FSTree.file ("chart.tgz"), FSTree.file ("install.yaml")]
    else if b = [1] then Except.ok [FSTree.file ("cainjector.tar")]
    else if b = [2] then Except.ok [FSTree.file ("cainjector.tar")]
    else Except.error ("corrupt archive")
  chartError := fun _ => none
  imageNameAt := fun _ => Except.ok ("quay.io/jetstack/cert-manager-cainjector")

/-- The manifests artifact of the sample release. -/
def sampleManifestsArtifact : StagedArtifact :=
  { Metadata := { Name := "cert-manager-manifests.tar.gz", SHA256 := "aa", OS := "",
                  Architecture := "", Kind := "manifests" }
    remote := Except.ok [0] }

/-- The linux/amd64 server artifact of the sample release. -/
def sampleServerAmd64 : StagedArtifact :=
  { Metadata := { Name := "cert-manager-server-linux-amd64.tar.gz", SHA256 := "bb", OS := "linux",
                  Architecture := "amd64", Kind := "server" }
    remote := Except.ok [1] }

/-- The linux/arm64 server artifact of the sample release. -/
def sampleServerArm64 : StagedArtifact :=
  { Metadata := { Name := "cert-manager-server-linux-arm64.tar.gz", SHA256 := "cc", OS := "linux",
                  Architecture := "arm64", Kind := "server" }
    remote := Except.ok [2] }

/-- An artifact whose declared digest does not match its content: the
bytes `[0]` hash to `"aa"` under `sampleEnv`, not to `"deadbeef"`. -/
def badSumArtifact : StagedArtifact :=
  { Metadata := { Name := "cert-manager-manifests.tar.gz", SHA256 := "deadbeef", OS := "",
                  Architecture := "", Kind := "manifests" }
    remote := Except.ok [0] }

/-- The full sample release: one manifests artifact, two server
artifacts. -/
def sampleStaged : Staged :=
  { name := "release-sample", ReleaseVersion := "v1.0.0", GitCommitRef := "abc123"
    artifacts := [sampleManifestsArtifact, sampleServerAmd64, sampleServerArm64] }

/-- The sample release with only its manifests artifact. -/
def sampleStagedNoServer : Staged :=
  { name := "release-noserver", ReleaseVersion := "v1.0.0", GitCommitRef := "abc123"
    artifacts := [sampleManifestsArtifact] }

/-- A release with no manifests artifact at all. -/
def stagedNoManifests : Staged :=
  { name := "release-nomanifests", ReleaseVersion := "v1.0.0", GitCommitRef := "abc123"
    artifacts := [sampleServerAmd64] }

/-- A release with two manifests artifacts. -/
def stagedTwoManifests : Staged :=
  { name := "release-twomanifests", ReleaseVersion := "v1.0.0", GitCommitRef := "abc123"
    artifacts := [sampleManifestsArtifact, badSumArtifact] }

/-- The result of unpacking `sampleStagedNoServer` under `sampleEnv`. -/
def sampleUnpackedNoServer : Unpacked :=
  { ReleaseVersion := "v1.0.0", GitCommitRef := "abc123"
    Charts := [{ path := "/tmp/extracted-artifact-0/chart.tgz" }]
    YAMLs := [{ path := "/tmp/extracted-artifact-0/install.yaml" }]
    ComponentImageBundles := fun _ => [] }

/-- `sampleEnv` with a chart loader that rejects every chart package. -/
def chartFailEnv : Env :=
  { sampleEnv with chartError := fun _ => some ("corrupt chart") }

/-! ## Theorems -/

/-- C3: for every staged release, resolving the manifests artifact
returns a not-found error naming the release when zero artifacts of kind
`manifests` exist, an ambiguity error naming the release when more than
one exists, and the unique matching artifact record when exactly one
exists. -/
theorem manifestArtifactForStaged_cardinality (s : Staged) :
    ((s.ArtifactsOfKind ("manifests")).length = 0 →
      manifestArtifactForStaged s = Except.error (UnpackError.notFoundManifests s.name)) ∧
    (1 < (s.ArtifactsOfKind ("manifests")).length →
      manifestArtifactForStaged s = Except.error (UnpackError.multipleManifests s.name)) ∧
    (∀ a, s.ArtifactsOfKind ("manifests") = [a] →
      manifestArtifactForStaged s = Except.ok a) := by
  refine ⟨?_, ?_, ?_⟩
  · intro h
    simp [manifestArtifactForStaged, h]
  · intro h
    have h0 : ¬ (s.ArtifactsOfKind ("manifests")).length = 0 := by omega
    simp [manifestArtifactForStaged, h0, h]
  · intro a ha
    simp [manifestArtifactForStaged, ha]

/-- Witness for C3: the three cardinality cases at concrete releases. -/
theorem manifestArtifactForStaged_cardinality_witness :
    manifestArtifactForStaged stagedNoManifests =
      Except.error (UnpackError.notFoundManifests ("release-nomanifests")) ∧
    manifestArtifactForStaged stagedTwoManifests =
      Except.error (UnpackError.multipleManifests ("release-twomanifests")) ∧
    manifestArtifactForStaged sampleStagedNoServer = Except.ok sampleManifestsArtifact :=
  ⟨(manifestArtifactForStaged_cardinality stagedNoManifests).1 (by decide),
   (manifestArtifactForStaged_cardinality stagedTwoManifests).2.1 (by decide),
   (manifestArtifactForStaged_cardinality sampleStagedNoServer).2.2 sampleManifestsArtifact rfl⟩

/-- C1: when the downloaded bytes of a staged artifact hash to a value
different from the declared `SHA256`, extraction fails with the integrity
error naming the artifact and the archive extractor is never invoked on
those bytes; moreover every invocation of the archive extractor is on
bytes whose computed digest equals the declared one. -/
theorem extractStagedArtifact_failClosed (env : Env) (a : StagedArtifact) (dest : Nat) :
    (∀ bytes, a.remote = Except.ok bytes →
        env.sha256Hex bytes ≠ a.Metadata.SHA256 →
        extractStagedArtifact env a dest =
          (Except.error (UnpackError.integrity a.Metadata.Name), ([] : List ExtractCall))) ∧
    (∀ c, c ∈ (extractStagedArtifact env a dest).2 →
        env.sha256Hex c.bytes = a.Metadata.SHA256) := by
  constructor
  · intro bytes hb hne
    simp [extractStagedArtifact, hb, sha256SumFile, hne]
  · intro c hc
    rcases hre : a.remote with e | bytes
    · simp [extractStagedArtifact, hre] at hc
    · by_cases h : env.sha256Hex bytes = a.Metadata.SHA256
      · rcases hu : env.untarGz bytes with e | t
        · simp [extractStagedArtifact, hre, sha256SumFile, h, hu] at hc
          rw [hc]
          exact h
        · simp [extractStagedArtifact, hre, sha256SumFile, h, hu] at hc
          rw [hc]
          exact h
      · simp [extractStagedArtifact, hre, sha256SumFile, h] at hc

/-- Witness for C1: the artifact declaring `"deadbeef"` whose content
hashes to `"aa"` is rejected with the integrity error and no extractor
call. -/
theorem extractStagedArtifact_failClosed_witness :
    extractStagedArtifact sampleEnv badSumArtifact 0 =
      (Except.error (UnpackError.integrity ("cert-manager-manifests.tar.gz")), []) :=
  (extractStagedArtifact_failClosed sampleEnv badSumArtifact 0).1 [0] rfl (by decide)

/-- The walk with an extension test is the extension filter of the walk
that collects every regular file (at every fuel level, since both walks
consume fuel identically). -/
theorem walkFuel_eq_filter (ext : String) :
    ∀ fuel path es, walkFuel ext fuel path es =
      (specFilesFuel fuel path es).filter (fun p => decide (filepathExt p = ext)) := by
  intro fuel
  induction fuel with
  | zero => intro path es; rfl
  | succ fuel ih =>
    intro path es
    cases es with
    | nil => rfl
    | cons e rest =>
      cases e with
      | file n =>
        by_cases h : filepathExt (path ++ "/" ++ n) = ext <;>
          simp [walkFuel, specFilesFuel, List.filter_append, List.filter_cons, h, ih]
      | dir n es2 =>
        simp [walkFuel, specFilesFuel, List.filter_append, ih]

/-- C5: the recursive scanner returns exactly the regular files whose
extension equals the requested one under exact case-sensitive comparison
(the filter of the all-files walk); directories never contribute; in the
concrete tree `a.yaml`, `b.YAML`, `c/d.yaml`, scanning for `.yaml`
returns exactly `[a.yaml, c/d.yaml]`; and when nothing matches the result
is the empty list, not an error. -/
theorem recursiveFindWithExt_exact :
    (∀ path entries ext, recursiveFindWithExt path entries ext =
        (specAllFiles path entries).filter (fun p => decide (filepathExt p = ext))) ∧
    recursiveFindWithExt ("/r")
        [FSTree.file ("a.yaml"), FSTree.file ("b.YAML"),
         FSTree.dir ("c") [FSTree.file ("d.yaml")]] (".yaml") =
      ["/r/a.yaml", "/r/c/d.yaml"] ∧
    recursiveFindWithExt ("/r") [FSTree.file ("b.YAML")] (".yaml") = [] := by
  refine ⟨?_, by decide, by decide⟩
  intro path entries ext
  simp [recursiveFindWithExt, specAllFiles, walkFuel_eq_filter]

/-- `baseRevScan` over characters containing no separator collects them
all, reversed back into forward order. -/
theorem baseRevScan_no_sep :
    ∀ (l acc : List Char), (∀ c ∈ l, c ≠ '/') →
      baseRevScan l acc = String.mk (l.reverse ++ acc) := by
  intro l
  induction l with
  | nil => intro acc _; rfl
  | cons c rest ih =>
    intro acc h
    have hc : ¬ c = '/' := h c (by simp)
    rw [baseRevScan, if_neg hc, ih (c :: acc) (fun x hx => h x (by simp [hx]))]
    simp

/-- `baseRevScan` stops at the first separator, collecting the
separator-free prefix. -/
theorem baseRevScan_until_sep :
    ∀ (l k acc : List Char), (∀ c ∈ l, c ≠ '/') →
      baseRevScan (l ++ '/' :: k) acc = String.mk (l.reverse ++ acc) := by
  intro l
  induction l with
  | nil => intro k acc _; simp [baseRevScan]
  | cons c rest ih =>
    intro k acc h
    have hc : ¬ c = '/' := h c (by simp)
    rw [List.cons_append, baseRevScan, if_neg hc,
      ih k (c :: acc) (fun x hx => h x (by simp [hx]))]
    simp

/-- `extRevScan` never looks past the first separator. -/
theorem extRevScan_until_sep :
    ∀ (l k acc : List Char), (∀ c ∈ l, c ≠ '/') →
      extRevScan (l ++ '/' :: k) acc = extRevScan l acc := by
  intro l
  induction l with
  | nil => intro k acc _; simp [extRevScan]
  | cons c rest ih =>
    intro k acc h
    have hc : ¬ c = '/' := h c (by simp)
    rw [List.cons_append, extRevScan, if_neg hc, extRevScan, if_neg hc]
    by_cases hdot : c = '.'
    · simp [hdot]
    · simp [hdot]
      exact ih k (c :: acc) (fun x hx => h x (by simp [hx]))

/-- `filepath.Base` of a separator-free, non-empty final element appended
to any directory prefix is that element. -/
theorem filepathBase_append (d b : String) (hne : b.data ≠ [])
    (hns : ∀ c ∈ b.data, c ≠ '/') :
    filepathBase (d ++ "/" ++ b) = b := by
  have hdata : (d ++ "/" ++ b).data = d.data ++ '/' :: b.data := by
    simp [String.data_append]
  have hnonempty : ¬ (d ++ "/" ++ b) = "" := by
    intro hcon
    have h2 : (d ++ "/" ++ b).data = [] := by rw [hcon]
    rw [hdata] at h2
    simp at h2
  rcases hb : b.data.reverse with _ | ⟨c, l'⟩
  · exact absurd (by simpa using congrArg List.reverse hb) hne
  have hcb : c ∈ b.data := by
    have h3 : c ∈ b.data.reverse := by rw [hb]; simp
    simpa using h3
  have hc : ¬ (c = '/') := hns c hcb
  have hrev : (d ++ "/" ++ b).data.reverse = c :: (l' ++ '/' :: d.data.reverse) := by
    rw [hdata, List.reverse_append, List.reverse_cons, hb]
    simp
  have hstep : ∀ x ∈ c :: l', x ≠ '/' := by
    intro x hx
    apply hns
    have h4 : x ∈ b.data.reverse := by rw [hb]; exact hx
    simpa using h4
  have hback : (c :: l').reverse = b.data := by
    rw [← hb]
    simp
  rw [filepathBase, if_neg hnonempty, hrev]
  show (if (dropSepRev (c :: (l' ++ '/' :: d.data.reverse))).isEmpty then "/"
    else baseRevScan (dropSepRev (c :: (l' ++ '/' :: d.data.reverse))) []) = b
  rw [dropSepRev, if_neg hc, ← List.cons_append, baseRevScan_until_sep (c :: l') _ [] hstep,
    hback]
  simp

/-- `filepath.Base` of a separator-free, non-empty path is the path
itself. -/
theorem filepathBase_no_sep (b : String) (hne : b.data ≠ [])
    (hns : ∀ c ∈ b.data, c ≠ '/') :
    filepathBase b = b := by
  have hnonempty : ¬ b = "" := by
    intro hcon
    apply hne
    rw [hcon]
  rcases hb : b.data.reverse with _ | ⟨c, l'⟩
  · exact absurd (by simpa using congrArg List.reverse hb) hne
  have hcb : c ∈ b.data := by
    have h3 : c ∈ b.data.reverse := by rw [hb]; simp
    simpa using h3
  have hc : ¬ (c = '/') := hns c hcb
  have hstep : ∀ x ∈ c :: l', x ≠ '/' := by
    intro x hx
    apply hns
    have h4 : x ∈ b.data.reverse := by rw [hb]; exact hx
    simpa using h4
  have hback : (c :: l').reverse = b.data := by
    rw [← hb]
    simp
  rw [filepathBase, if_neg hnonempty]
  show (if (dropSepRev b.data.reverse).isEmpty then "/"
    else baseRevScan (dropSepRev b.data.reverse) []) = b
  rw [hb, dropSepRev, if_neg hc, baseRevScan_no_sep (c :: l') [] hstep, hback]
  simp

/-- C6: the component name of a discovered image archive is a pure
function of the path's base filename — prefixing any directory does not
change it — and on `.../cainjector-amd64.tar` it is `cainjector-amd64`,
the base name with its extension stripped and nothing else altered. -/
theorem componentName_pure_function_of_base :
    (∀ d b : String, b.data ≠ [] → (∀ c ∈ b.data, c ≠ '/') →
        componentNameOf (d ++ "/" ++ b) = componentNameOf b) ∧
    componentNameOf ("/tmp/extracted-artifact-1/cainjector-amd64.tar") = "cainjector-amd64" := by
  constructor
  · intro d b hne hns
    rw [componentNameOf, componentNameOf, filepathBase_append d b hne hns,
      filepathBase_no_sep b hne hns]
  · decide

/-- Witness for C6: stripping the directory prefix from a concrete
discovered path leaves the component name unchanged. -/
theorem componentName_pure_function_of_base_witness :
    componentNameOf ("/srv/out" ++ "/" ++ "cainjector-amd64.tar") =
      componentNameOf ("cainjector-amd64.tar") :=
  componentName_pure_function_of_base.1 ("/srv/out") ("cainjector-amd64.tar")
    (by decide) (by decide)

/-- C10: component-name derivation strips only the final extension:
`foo.bar.tar` classifies under `"foo.bar"`, a file whose base name is
exactly `.tar` classifies under the empty-string key, and the classifier
files a discovered `foo.bar.tar` archive under `"foo.bar"`. -/
theorem componentName_strips_only_final_extension :
    componentNameOf ("/tmp/extracted-artifact-1/foo.bar.tar") = "foo.bar" ∧
    componentNameOf ("/tmp/extracted-artifact-1/.tar") = "" ∧
    (match classifyImageArchives sampleEnv ("linux") ("amd64")
        ["/tmp/extracted-artifact-1/foo.bar.tar"] (fun _ => []) with
     | Except.ok m => m ("foo.bar")
     | Except.error _ => []) =
      [{ path := "/tmp/extracted-artifact-1/foo.bar.tar", os := "linux",
         architecture := "amd64",
         imageName := "quay.io/jetstack/cert-manager-cainjector" }] := by
  refine ⟨by decide, by decide, by decide⟩

/-- C7: every successful `Unpack` copies the staged release's
`ReleaseVersion` and `GitCommitRef` verbatim into the result. -/
theorem Unpack_version_commit_verbatim (env : Env) (s : Staged) (fresh : Nat) (u : Unpacked)
    (h : (Unpack env s fresh).1 = Except.ok u) :
    u.ReleaseVersion = s.ReleaseVersion ∧ u.GitCommitRef = s.GitCommitRef := by
  unfold Unpack at h
  rcases hm : manifestArtifactForStaged s with e | a <;> rw [hm] at h
  · simp at h
  dsimp only at h
  rcases hx : extractStagedArtifactToTempDir env a fresh with ⟨rx, f1, c1⟩
  rw [hx] at h
  rcases rx with e | ⟨dir, t⟩
  · simp at h
  dsimp only at h
  rcases hc : buildCharts env (recursiveFindWithExt (tempDirPath dir) t (".tgz")) with e | ch <;>
    rw [hc] at h
  · simp at h
  rcases hs : unpackServerImagesFromRelease env s f1 with ⟨rs, f2, c2⟩
  rw [hs] at h
  rcases rs with e | m
  · simp at h
  simp at h
  subst h
  exact ⟨rfl, rfl⟩

/-- Witness for C7: the sample single-manifests-artifact release unpacks
successfully and the result carries its version and commit unchanged. -/
theorem Unpack_version_commit_verbatim_witness :
    sampleUnpackedNoServer.ReleaseVersion = sampleStagedNoServer.ReleaseVersion ∧
    sampleUnpackedNoServer.GitCommitRef = sampleStagedNoServer.GitCommitRef :=
  Unpack_version_commit_verbatim sampleEnv sampleStagedNoServer 0 sampleUnpackedNoServer rfl

/-- A release whose `manifests`-kind artifacts are exactly `[a]` resolves
to `a`. -/
theorem manifestArtifact_singleton (s : Staged) (a : StagedArtifact)
    (h : s.ArtifactsOfKind ("manifests") = [a]) :
    manifestArtifactForStaged s = Except.ok a := by
  simp [manifestArtifactForStaged, h]

/-- C2: `Unpack` is fail-fast and all-or-nothing: the error of the first
failing step (manifests selection, fetch-verify-extract, chart
construction, server-image processing) is returned unchanged as the whole
result, and only when every step succeeds is the fully assembled
`Unpacked` value — version, commit, charts, YAMLs, bundles — returned. -/
theorem Unpack_all_or_nothing (env : Env) (s : Staged) (fresh : Nat) :
    (∀ e, manifestArtifactForStaged s = Except.error e →
        (Unpack env s fresh).1 = Except.error e) ∧
    (∀ a f c, manifestArtifactForStaged s = Except.ok a →
        ∀ e, extractStagedArtifactToTempDir env a fresh = (Except.error e, f, c) →
          (Unpack env s fresh).1 = Except.error e) ∧
    (∀ a dir t f c, manifestArtifactForStaged s = Except.ok a →
        extractStagedArtifactToTempDir env a fresh = (Except.ok (dir, t), f, c) →
        (∀ e, buildCharts env (recursiveFindWithExt (tempDirPath dir) t (".tgz")) =
              Except.error e →
            (Unpack env s fresh).1 = Except.error e) ∧
        (∀ ch, buildCharts env (recursiveFindWithExt (tempDirPath dir) t (".tgz")) =
              Except.ok ch →
            (∀ e f2 c2, unpackServerImagesFromRelease env s f = (Except.error e, f2, c2) →
                (Unpack env s fresh).1 = Except.error e) ∧
            (∀ m f2 c2, unpackServerImagesFromRelease env s f = (Except.ok m, f2, c2) →
                (Unpack env s fresh).1 = Except.ok
                  { ReleaseVersion := s.ReleaseVersion
                    GitCommitRef := s.GitCommitRef
                    Charts := ch
                    YAMLs := (recursiveFindWithExt (tempDirPath dir) t (".yaml")).map
                      manifestsNewYAML
                    ComponentImageBundles := m }))) := by
  refine ⟨?_, ?_, ?_⟩
  · intro e hm
    unfold Unpack
    rw [hm]
  · intro a f c hm e hx
    unfold Unpack
    rw [hm]
    dsimp only
    rw [hx]
  · intro a dir t f c hm hx
    constructor
    · intro e hc
      unfold Unpack
      rw [hm]
      dsimp only
      rw [hx]
      dsimp only
      rw [hc]
    · intro ch hc
      constructor
      · intro e f2 c2 hs
        unfold Unpack
        rw [hm]
        dsimp only
        rw [hx]
        dsimp only
        rw [hc]
        dsimp only
        rw [hs]
      · intro m f2 c2 hs
        unfold Unpack
        rw [hm]
        dsimp only
        rw [hx]
        dsimp only
        rw [hc]
        dsimp only
        rw [hs]

/-- Witness for C2: a failing selection propagates its error as the whole
result, and a fully successful run returns the complete assembled
value. -/
theorem Unpack_all_or_nothing_witness :
    (Unpack sampleEnv stagedNoManifests 0).1 =
      Except.error (UnpackError.notFoundManifests ("release-nomanifests")) ∧
    (Unpack sampleEnv sampleStagedNoServer 0).1 = Except.ok sampleUnpackedNoServer := by
  constructor
  · exact (Unpack_all_or_nothing sampleEnv stagedNoManifests 0).1 _ rfl
  · exact (((Unpack_all_or_nothing sampleEnv sampleStagedNoServer 0).2.2
      sampleManifestsArtifact 0 [FSTree.file ("chart.tgz"), FSTree.file ("install.yaml")] 1
      [⟨0, [0]⟩] rfl rfl).2 [{ path := "/tmp/extracted-artifact-0/chart.tgz" }] rfl).2
      (fun _ => []) 1 [] rfl

/-- Every extractor invocation of one `extractStagedArtifact` call
targets the directory it was given, and there is at most one such
invocation. -/
theorem extractStagedArtifact_trace (env : Env) (a : StagedArtifact) (dest : Nat) :
    (∀ c ∈ (extractStagedArtifact env a dest).2, c.dest = dest) ∧
    ((extractStagedArtifact env a dest).2.map ExtractCall.dest).Nodup := by
  unfold extractStagedArtifact
  rcases a.remote with e | bytes
  · simp
  dsimp only
  split
  · simp
  split <;> simp

/-- One `extractStagedArtifactToTempDir` call consumes exactly one fresh
directory: the next counter is `fresh + 1`, every extractor invocation it
performs targets directory `fresh` (and there is at most one), and on
success the directory it reports is `fresh`. -/
theorem extractToTempDir_calls (env : Env) (a : StagedArtifact) (fresh : Nat) :
    (extractStagedArtifactToTempDir env a fresh).2.1 = fresh + 1 ∧
    (∀ c ∈ (extractStagedArtifactToTempDir env a fresh).2.2, c.dest = fresh) ∧
    ((extractStagedArtifactToTempDir env a fresh).2.2.map ExtractCall.dest).Nodup ∧
    (∀ dir t, (extractStagedArtifactToTempDir env a fresh).1 = Except.ok (dir, t) →
        dir = fresh) := by
  have hbase := extractStagedArtifact_trace env a fresh
  unfold extractStagedArtifactToTempDir
  rcases hx : extractStagedArtifact env a fresh with ⟨r, calls⟩
  rw [hx] at hbase
  dsimp only at hbase
  rcases r with e | t
  · exact ⟨rfl, hbase.1, hbase.2, by intro dir t' h; cases h⟩
  · refine ⟨rfl, hbase.1, hbase.2, ?_⟩
    intro dir t' h
    simp only [Except.ok.injEq, Prod.mk.injEq] at h
    exact h.1.symm

/-- The server-artifact loop allocates strictly increasing fresh
directories: the final counter is at least the initial one, every
extractor invocation targets a directory in the consumed counter range,
and no two invocations share a destination. -/
theorem serverArtifactsLoop_calls (env : Env) :
    ∀ (as : List StagedArtifact) (fresh : Nat) (m : String → List ImagesTar),
      fresh ≤ (serverArtifactsLoop env as fresh m).2.1 ∧
      (∀ c ∈ (serverArtifactsLoop env as fresh m).2.2,
          fresh ≤ c.dest ∧ c.dest < (serverArtifactsLoop env as fresh m).2.1) ∧
      ((serverArtifactsLoop env as fresh m).2.2.map ExtractCall.dest).Nodup := by
  intro as
  induction as with
  | nil =>
    intro fresh m
    simp [serverArtifactsLoop]
  | cons a rest ih =>
    intro fresh m
    unfold serverArtifactsLoop
    rcases hx : extractStagedArtifactToTempDir env a fresh with ⟨rx, f1, calls⟩
    have hspec := extractToTempDir_calls env a fresh
    rw [hx] at hspec
    dsimp only at hspec
    obtain ⟨hf1, hdest, hnodup, -⟩ := hspec
    subst hf1
    rcases rx with e | ⟨dir, t⟩
    · dsimp only
      refine ⟨by omega, ?_, hnodup⟩
      intro c hc
      have := hdest c hc
      omega
    dsimp only
    rcases hcl : classifyImageArchives env a.Metadata.OS a.Metadata.Architecture
        (recursiveFindWithExt (tempDirPath dir) t (".tar")) m with e | m2
    · dsimp only
      refine ⟨by omega, ?_, hnodup⟩
      intro c hc
      have := hdest c hc
      omega
    dsimp only
    obtain ⟨hle, hrange, hnodup2⟩ := ih (fresh + 1) m2
    refine ⟨by omega, ?_, ?_⟩
    · intro c hc
      rcases List.mem_append.mp hc with hc1 | hc2
      · have := hdest c hc1
        omega
      · have := hrange c hc2
        omega
    · rw [List.map_append]
      rw [List.nodup_append]
      refine ⟨hnodup, hnodup2, ?_⟩
      intro x hx1 hx2
      rcases List.mem_map.mp hx1 with ⟨c1, hc1, hxc1⟩
      rcases List.mem_map.mp hx2 with ⟨c2, hc2, hxc2⟩
      have e1 := hdest c1 hc1
      have e2 := hrange c2 hc2
      omega

/-- C8: in every `Unpack` run each artifact is extracted into its own
freshly allocated temporary directory: every archive-extractor invocation
targets a directory allocated during this run, and no two invocations
share a destination directory. -/
theorem Unpack_extraction_dirs_isolated (env : Env) (s : Staged) (fresh : Nat) :
    (∀ c ∈ (Unpack env s fresh).2.2,
        fresh ≤ c.dest ∧ c.dest < (Unpack env s fresh).2.1) ∧
    ((Unpack env s fresh).2.2.map ExtractCall.dest).Nodup := by
  unfold Unpack
  rcases hm : manifestArtifactForStaged s with e | a
  · simp
  dsimp only
  rcases hx : extractStagedArtifactToTempDir env a fresh with ⟨rx, f1, calls⟩
  have hspec := extractToTempDir_calls env a fresh
  rw [hx] at hspec
  dsimp only at hspec
  obtain ⟨hf1, hdest, hnodup, -⟩ := hspec
  subst hf1
  rcases rx with e | ⟨dir, t⟩
  · dsimp only
    refine ⟨?_, hnodup⟩
    intro c hc
    have := hdest c hc
    omega
  dsimp only
  rcases hc : buildCharts env (recursiveFindWithExt (tempDirPath dir) t (".tgz")) with e | ch
  · dsimp only
    refine ⟨?_, hnodup⟩
    intro c hc2
    have := hdest c hc2
    omega
  dsimp only
  rcases hs : unpackServerImagesFromRelease env s (fresh + 1) with ⟨rs, f2, calls2⟩
  have hloop := serverArtifactsLoop_calls env (s.ArtifactsOfKind ("server")) (fresh + 1)
    (fun _ => [])
  have hs2 : serverArtifactsLoop env (s.ArtifactsOfKind ("server")) (fresh + 1) (fun _ => []) =
      (rs, f2, calls2) := hs
  rw [hs2] at hloop
  dsimp only at hloop
  obtain ⟨hle, hrange, hnodup2⟩ := hloop
  have hjoint : (∀ c ∈ calls ++ calls2, fresh ≤ c.dest ∧ c.dest < f2) ∧
      ((calls ++ calls2).map ExtractCall.dest).Nodup := by
    constructor
    · intro c hcm
      rcases List.mem_append.mp hcm with h1 | h2
      · have := hdest c h1
        omega
      · have := hrange c h2
        omega
    · rw [List.map_append, List.nodup_append]
      refine ⟨hnodup, hnodup2, ?_⟩
      intro x hx1 hx2
      rcases List.mem_map.mp hx1 with ⟨c1, hc1, hxc1⟩
      rcases List.mem_map.mp hx2 with ⟨c2, hc2, hxc2⟩
      have e1 := hdest c1 hc1
      have e2 := hrange c2 hc2
      omega
  rcases rs with e | m <;> dsimp only <;> exact hjoint

/-- When every discovered chart path is accepted by the chart loader,
chart construction succeeds and yields one Chart per path, in order. -/
theorem buildCharts_ok (env : Env) :
    ∀ paths : List String, (∀ p ∈ paths, env.chartError p = none) →
      buildCharts env paths = Except.ok (paths.map (fun p => { path := p })) := by
  intro paths
  induction paths with
  | nil => intro _; rfl
  | cons p rest ih =>
    intro h
    have hp : env.chartError p = none := h p (by simp)
    rw [buildCharts, ih (fun q hq => h q (by simp [hq]))]
    simp [manifestsNewChart, hp]

/-- Counterexample to C9 as stated: a staged release with exactly one
manifests artifact that fetches, verifies and extracts successfully and
with zero server-kind artifacts, for which `Unpack` nevertheless fails —
the extracted archive contains a `.tgz` the chart loader rejects. -/
theorem Unpack_noServer_claim_counterexample :
    (sampleStagedNoServer.ArtifactsOfKind ("manifests")).length = 1 ∧
    (extractStagedArtifactToTempDir chartFailEnv sampleManifestsArtifact 0).1 =
      Except.ok (0, [FSTree.file ("chart.tgz"), FSTree.file ("install.yaml")]) ∧
    sampleStagedNoServer.ArtifactsOfKind ("server") = [] ∧
    (Unpack chartFailEnv sampleStagedNoServer 0).1 =
      Except.error (UnpackError.chartErr ("corrupt chart")) :=
  ⟨rfl, rfl, rfl, rfl⟩

/-- C9 (amended): for every staged release with exactly one manifests
artifact that fetches, verifies and extracts successfully, whose
discovered `.tgz` files all construct charts successfully, and with zero
server-kind artifacts, `Unpack` succeeds and the resulting
`ComponentImageBundles` is the empty map. -/
theorem Unpack_noServer_emptyBundles (env : Env) (s : Staged) (fresh : Nat)
    (a : StagedArtifact) (t : List FSTree) (c : List ExtractCall)
    (hm : s.ArtifactsOfKind ("manifests") = [a])
    (hx : extractStagedArtifact env a fresh = (Except.ok t, c))
    (hch : ∀ p ∈ recursiveFindWithExt (tempDirPath fresh) t (".tgz"), env.chartError p = none)
    (hserver : s.ArtifactsOfKind ("server") = []) :
    (Unpack env s fresh).1.map (fun u => u.ComponentImageBundles) =
      Except.ok (fun _ => []) := by
  have hma : manifestArtifactForStaged s = Except.ok a := manifestArtifact_singleton s a hm
  have hx2 : extractStagedArtifactToTempDir env a fresh =
      (Except.ok (fresh, t), fresh + 1, c) := by
    unfold extractStagedArtifactToTempDir
    rw [hx]
  have hserver2 : unpackServerImagesFromRelease env s (fresh + 1) =
      (Except.ok (fun _ => []), fresh + 1, []) := by
    unfold unpackServerImagesFromRelease
    rw [hserver]
    rfl
  unfold Unpack
  rw [hma]
  dsimp only
  rw [hx2]
  dsimp only
  rw [buildCharts_ok env _ hch]
  dsimp only
  rw [hserver2]
  rfl

/-- Witness for the amended C9: the sample release with only its
manifests artifact unpacks successfully with no component bundles. -/
theorem Unpack_noServer_emptyBundles_witness :
    (Unpack sampleEnv sampleStagedNoServer 0).1.map (fun u => u.ComponentImageBundles) =
      Except.ok (fun _ => []) :=
  Unpack_noServer_emptyBundles sampleEnv sampleStagedNoServer 0 sampleManifestsArtifact
    [FSTree.file ("chart.tgz"), FSTree.file ("install.yaml")] [⟨0, [0]⟩]
    rfl rfl (by decide) rfl

/-- C4: two server artifacts processed in declaration order, each of
whose archives contains one image tar classifying under the same
component key, accumulate exactly two descriptors under that key, in
processing order, each tagged with its own artifact's declared OS and
architecture. -/
theorem serverImages_cross_platform_accumulation
    (env : Env) (s : Staged) (fresh : Nat) (a1 a2 : StagedArtifact)
    (t1 t2 : List FSTree) (c1 c2 : List ExtractCall) (p1 p2 n1 n2 k : String)
    (hs : s.ArtifactsOfKind ("server") = [a1, a2])
    (h1 : extractStagedArtifact env a1 fresh = (Except.ok t1, c1))
    (h2 : extractStagedArtifact env a2 (fresh + 1) = (Except.ok t2, c2))
    (hf1 : recursiveFindWithExt (tempDirPath fresh) t1 (".tar") = [p1])
    (hf2 : recursiveFindWithExt (tempDirPath (fresh + 1)) t2 (".tar") = [p2])
    (hi1 : env.imageNameAt p1 = Except.ok n1)
    (hi2 : env.imageNameAt p2 = Except.ok n2)
    (hk1 : componentNameOf p1 = k)
    (hk2 : componentNameOf p2 = k) :
    (unpackServerImagesFromRelease env s fresh).1.map (fun m => m k) =
      Except.ok
        [{ path := p1, os := a1.Metadata.OS, architecture := a1.Metadata.Architecture,
           imageName := n1 },
         { path := p2, os := a2.Metadata.OS, architecture := a2.Metadata.Architecture,
           imageName := n2 }] := by
  have hx1 : extractStagedArtifactToTempDir env a1 fresh =
      (Except.ok (fresh, t1), fresh + 1, c1) := by
    unfold extractStagedArtifactToTempDir
    rw [h1]
  have hx2 : extractStagedArtifactToTempDir env a2 (fresh + 1) =
      (Except.ok (fresh + 1, t2), fresh + 2, c2) := by
    unfold extractStagedArtifactToTempDir
    rw [h2]
  unfold unpackServerImagesFromRelease
  rw [hs]
  simp only [serverArtifactsLoop, hx1, hx2, hf1, hf2, classifyImageArchives, imagesNewTar,
    hi1, hi2]
  simp [hk1, hk2]
  simp [Except.map]

/-- Witness for C4: the sample release's two server artifacts, for
linux/amd64 and linux/arm64 in that order, each containing
`cainjector.tar`, yield exactly two entries under `"cainjector"`, in that
order, tagged with the matching OS and architecture. -/
theorem serverImages_cross_platform_accumulation_witness :
    (unpackServerImagesFromRelease sampleEnv sampleStaged 1).1.map
        (fun m => m ("cainjector")) =
      Except.ok
        [{ path := "/tmp/extracted-artifact-1/cainjector.tar", os := "linux",
           architecture := "amd64",
           imageName := "quay.io/jetstack/cert-manager-cainjector" },
         { path := "/tmp/extracted-artifact-2/cainjector.tar", os := "linux",
           architecture := "arm64",
           imageName := "quay.io/jetstack/cert-manager-cainjector" }] :=
  serverImages_cross_platform_accumulation sampleEnv sampleStaged 1
    sampleServerAmd64 sampleServerArm64
    [FSTree.file ("cainjector.tar")] [FSTree.file ("cainjector.tar")]
    [⟨1, [1]⟩] [⟨2, [2]⟩]
    ("/tmp/extracted-artifact-1/cainjector.tar") ("/tmp/extracted-artifact-2/cainjector.tar")
    ("quay.io/jetstack/cert-manager-cainjector") ("quay.io/jetstack/cert-manager-cainjector")
    ("cainjector") rfl rfl rfl rfl rfl rfl rfl rfl rfl

end CertManagerRelease
